import Mathlib

/-
Shallow embedding of src/lib/selection-manager.js (highlight-selected).

Rows and columns are JS numbers; row arithmetic is modelled with Int.
A column produced by an out-of-bounds array read (JS undefined) is
modelled by Option Int, with some n for a defined number.
-/

namespace HighlightSelected

/-- A buffer position, as in the JS objects start/end of a range.
The column is Option Int because the source stores the result of
rowLengths[endRow], which is undefined when the index is out of bounds. -/
structure Pos where
  row : Int
  column : Option Int
deriving DecidableEq, Repr

/-- A buffer range start..end; the end field is named stop because end is a
Lean keyword. -/
structure Range where
  start : Pos
  stop : Pos
deriving DecidableEq, Repr

/-- JS rowLengths[i] for an Int index: a number when 0 <= i < length,
undefined (none) otherwise. -/
def lineLen (rowLengths : List Nat) (i : Int) : Option Int :=
  if i < 0 then none else (rowLengths[i.toNat]?).map Int.ofNat

/-- Head part of the complement computed in foldNonSelected: the rows before
the first highlighted range, emitted when ranges[0].start.row != 0. -/
def headCandids (r0 : Range) (rowLengths : List Nat) : List Range :=
  if r0.start.row ≠ 0 then
    let rowBeforeSelection := r0.start.row - 1
    [⟨⟨0, some 0⟩, ⟨rowBeforeSelection, lineLen rowLengths rowBeforeSelection⟩⟩]
  else []

/-- Gap part of the complement: the loop for i = 1 .. LAST_RANGE in
foldNonSelected, pairing each range with its successor and emitting the rows
strictly between them when startRow <= endRow. -/
def gapCandids (rowLengths : List Nat) : List Range → List Range
  | r1 :: r2 :: rs =>
    let startRow := r1.stop.row + 1
    let endRow := r2.start.row - 1
    (if startRow ≤ endRow then
       [⟨⟨startRow, some 0⟩, ⟨endRow, lineLen rowLengths endRow⟩⟩]
     else [])
      ++ gapCandids rowLengths (r2 :: rs)
  | _ => []

/-- The element ranges[LAST_RANGE] (LAST_RANGE = ranges.length - 1), for a
list presented as r0 :: rest. -/
def lastRange (r0 : Range) : List Range → Range
  | [] => r0
  | r1 :: rs => lastRange r1 rs

/-- Tail part of the complement: the rows after the last highlighted range,
emitted when ranges[LAST_RANGE].end.row != LAST_LINE. -/
def tailCandids (rLast : Range) (rowLengths : List Nat) : List Range :=
  let lastLine : Int := (rowLengths.length : Int) - 1
  if rLast.stop.row ≠ lastLine then
    let rowAfterSelection := rLast.stop.row + 1
    [⟨⟨rowAfterSelection, some 0⟩, ⟨lastLine, lineLen rowLengths lastLine⟩⟩]
  else []

/-- The full hideCandids list built by foldNonSelected when ranges.length > 0:
head rows, then the gaps between consecutive ranges, then the tail rows, in
exactly the push order of the source. -/
def hideCandidates (ranges : List Range) (rowLengths : List Nat) : List Range :=
  match ranges with
  | [] => []
  | r0 :: rest =>
    headCandids r0 rowLengths ++ gapCandids rowLengths (r0 :: rest)
      ++ tailCandids (lastRange r0 rest) rowLengths

/-- A range covers row x when start.row <= x <= end.row. -/
def coversRow (r : Range) (x : Int) : Prop :=
  r.start.row ≤ x ∧ x ≤ r.stop.row

instance (r : Range) (x : Int) : Decidable (coversRow r x) :=
  inferInstanceAs (Decidable (r.start.row ≤ x ∧ x ≤ r.stop.row))

/-- Some range in the list covers row x. -/
def rowCovered (l : List Range) (x : Int) : Prop :=
  ∃ r ∈ l, coversRow r x

instance (l : List Range) (x : Int) : Decidable (rowCovered l x) :=
  inferInstanceAs (Decidable (∃ r ∈ l, coversRow r x))

/-- Well-formedness of a range list: each range ends no earlier than it
starts, at the row level. -/
def wfRanges (l : List Range) : Prop :=
  ∀ r ∈ l, r.start.row ≤ r.stop.row

/-- Sorted and pairwise non-overlapping, at the row level: each range ends on
a row no later than the row on which the next one starts. -/
def sortedRanges (l : List Range) : Prop :=
  l.Chain' (fun a b => a.stop.row ≤ b.start.row)

instance (l : List Range) : Decidable (wfRanges l) :=
  inferInstanceAs (Decidable (∀ r ∈ l, r.start.row ≤ r.stop.row))

instance (l : List Range) : Decidable (sortedRanges l) :=
  inferInstanceAs (Decidable (l.Chain' (fun (a b : Range) => a.stop.row ≤ b.start.row)))

/-- The pair of marker-layer handles stored per editor id in
editorToMarkerLayerMap. A handle is an index into the host layer store. -/
structure LayerPair where
  visibleMarkerLayer : Nat
  selectedMarkerLayer : Nat
deriving DecidableEq, Repr

/-- A text editor as this code observes it: a stable id, the buffer text,
the currently folded ranges, and the current selections. -/
structure Editor where
  id : Nat
  buffer : String
  folds : List Range
  selections : List Range
deriving DecidableEq, Repr

/-- The lazily created debounce wrapper: the delay captured at creation and
whether a trailing invocation is pending. -/
structure Wrapper where
  delay : Nat
  pending : Bool
deriving DecidableEq, Repr

/-- State of a SelectionManager instance together with the host pieces it
touches: the host-owned marker layers (indexed by handle), the active editor,
the registry map, the configuration store, and the four subscription groups.
searchCalls counts invocations of searchModel.handleSelection, the external
search engine boundary. timeoutSub is the disposable returned by
listenForTimeoutChange, which the constructor never stores. -/
structure World where
  layers : List (List Range)
  active : Option Editor
  map : List (Nat × LayerPair)
  resultCount : Nat
  hideCandids : Option (List Range)
  disabled : Bool
  events : List String
  wrapper : Option Wrapper
  configTimeout : Nat
  activeItemSub : Bool
  selectionSub : Bool
  editorSubs : Bool
  timeoutSub : Bool
  searchCalls : Nat
deriving DecidableEq, Repr

/-- Result of one public operation: the resulting world, and whether the
operation threw a TypeError (JS dereference of undefined). -/
structure Step where
  world : World
  threw : Bool
deriving DecidableEq, Repr

/-- Lookup in editorToMarkerLayerMap. -/
def mapLookup (m : List (Nat × LayerPair)) (k : Nat) : Option LayerPair :=
  (m.find? (fun p => p.1 == k)).map (fun p => p.2)

/-- Assignment editorToMarkerLayerMap[k] = v: replace in place if the key is
present, append otherwise. -/
def mapSet (m : List (Nat × LayerPair)) (k : Nat) (v : LayerPair) :
    List (Nat × LayerPair) :=
  if (m.find? (fun p => p.1 == k)).isSome then
    m.map (fun p => if p.1 == k then (k, v) else p)
  else m ++ [(k, v)]

/-- The delete operator on editorToMarkerLayerMap. -/
def mapErase (m : List (Nat × LayerPair)) (k : Nat) : List (Nat × LayerPair) :=
  m.filter (fun p => p.1 != k)

/-- markerLayer.clear() on the handle h of the host layer store. -/
def clearLayer (ls : List (List Range)) (h : Nat) : List (List Range) :=
  ls.set h []

/-- The markers currently held by the handle h. -/
def layerMarkers (w : World) (h : Nat) : List Range :=
  w.layers.getD h []

/-- The ranges collected in selectAll and foldNonSelected: every marker of the
visible layer followed by every marker of the selected layer. -/
def getMarkersOf (w : World) (lp : LayerPair) : List Range :=
  layerMarkers w lp.visibleMarkerLayer ++ layerMarkers w lp.selectedMarkerLayer

/-- JS String.prototype.split with a one-character separator: always yields at
least one (possibly empty) piece. -/
def jsSplit (sep : Char) : List Char → List (List Char)
  | [] => [[]]
  | c :: cs =>
    let r := jsSplit sep cs
    if c = sep then [] :: r
    else
      match r with
      | h :: t => (c :: h) :: t
      | [] => [[c]]

/-- editor.buffer.getText().split(newline).map(line => line.length). -/
def bufferRowLengths (ed : Editor) : List Nat :=
  (jsSplit '\n' ed.buffer.data).map List.length

/-- removeMarkers(editorId): silently returns when the map has no entry,
otherwise clears both layers, resets resultCount and emits the
did-remove-marker-layer event. -/
def removeMarkersW (w : World) (editorId : Nat) : World :=
  match mapLookup w.map editorId with
  | none => w
  | some lp =>
    { w with
        layers := clearLayer (clearLayer w.layers lp.visibleMarkerLayer)
          lp.selectedMarkerLayer,
        resultCount := 0,
        events := w.events ++ ["did-remove-marker-layer"] }

/-- removeAllMarkers(): removeMarkers for every key of the map. -/
def removeAllMarkersW (w : World) : World :=
  List.foldl removeMarkersW w (w.map.map (fun p => p.1))

/-- The delete of the map entry performed by the onWillDestroyPaneItem
subscription after removeMarkers. -/
def dropEntryW (w : World) (editorId : Nat) : World :=
  { w with map := mapErase w.map editorId }

/-- setupMarkerLayers(editor): reads any existing handles into locals, then
unconditionally shadows them with two freshly allocated layers and stores the
fresh pair as the entry for the editor id. -/
def setupMarkerLayersW (w : World) (editorId : Nat) : World :=
  let markerLayer := w.layers.length
  let layers1 := w.layers ++ [[]]
  let markerLayerForHiddenMarkers := layers1.length
  let layers2 := layers1 ++ [[]]
  { w with
      layers := layers2,
      map := mapSet w.map editorId ⟨markerLayer, markerLayerForHiddenMarkers⟩ }

/-- selectAll(): dereferences getActiveEditor().id, which throws when there is
no active editor; silently returns when the map has no entry; replaces the
selection with the collected ranges when they are non-empty. -/
def selectAllW (w : World) : Step :=
  match w.active with
  | none => ⟨w, true⟩
  | some ed =>
    match mapLookup w.map ed.id with
    | none => ⟨w, false⟩
    | some lp =>
      let ranges := getMarkersOf w lp
      if ranges.length > 0 then
        ⟨{ w with active := some { ed with selections := ranges } }, false⟩
      else ⟨w, false⟩

/-- unfoldNonSelected(): editor.unfoldAll() (throws when there is no active
editor), then hideCandids = null. -/
def unfoldNonSelectedW (w : World) : Step :=
  match w.active with
  | none => ⟨w, true⟩
  | some ed =>
    ⟨{ w with active := some { ed with folds := [] }, hideCandids := none }, false⟩

/-- foldNonSelected(): first assigns hideCandids = empty list, then
dereferences getActiveEditor().id (throws when there is no active editor),
silently returns when the map has no entry or no ranges are collected, and
otherwise stores the computed complement in hideCandids and folds each of its
ranges. -/
def foldNonSelectedW (w : World) : Step :=
  let w0 := { w with hideCandids := some [] }
  match w0.active with
  | none => ⟨w0, true⟩
  | some ed =>
    match mapLookup w0.map ed.id with
    | none => ⟨w0, false⟩
    | some lp =>
      let ranges := getMarkersOf w0 lp
      if ranges.length > 0 then
        let rowLengths := bufferRowLengths ed
        let candids := hideCandidates ranges rowLengths
        ⟨{ w0 with
             hideCandids := some candids,
             active := some { ed with folds := ed.folds ++ candids } }, false⟩
      else ⟨w0, false⟩

/-- toogleFoldNonSelected() (name as in the source): unfold when hideCandids
is non-null (a JS array, even empty, is truthy), fold otherwise. -/
def toogleFoldNonSelectedW (w : World) : Step :=
  match w.hideCandids with
  | some _ => unfoldNonSelectedW w
  | none => foldNonSelectedW w

/-- debouncedHandleSelection(): lazily builds the debounce wrapper, reading
the timeout configuration value at that moment, then invokes the wrapper,
leaving one trailing invocation pending. -/
def debouncedHandleSelectionW (w : World) : World :=
  match w.wrapper with
  | none => { w with wrapper := some ⟨w.configTimeout, true⟩ }
  | some d => { w with wrapper := some ⟨d.delay, true⟩ }

/-- subscribeToActiveTextEditor(): disposes any existing selection
subscription; returns when there is no active editor; otherwise subscribes to
the active editor's selection events and calls searchModel.handleSelection()
immediately. -/
def subscribeToActiveTextEditorW (w : World) : World :=
  let w1 := { w with selectionSub := false }
  match w1.active with
  | none => w1
  | some _ => { w1 with selectionSub := true, searchCalls := w1.searchCalls + 1 }

/-- enable(): clears the disabled flag and triggers one debounced
recomputation. -/
def enableW (w : World) : World :=
  debouncedHandleSelectionW { w with disabled := false }

/-- disable(): sets the disabled flag and removes all markers; nothing else. -/
def disableW (w : World) : World :=
  removeAllMarkersW { w with disabled := true }

/-- destroy(): handleSelectionDebounce.clear() (throws if the wrapper was
never built), then disposes the active-item, selection and editor-lifecycle
subscriptions. The listenForTimeoutChange disposable was never stored, so
timeoutSub is left subscribed. -/
def destroyW (w : World) : Step :=
  match w.wrapper with
  | none => ⟨w, true⟩
  | some d =>
    ⟨{ w with
         wrapper := some ⟨d.delay, false⟩,
         activeItemSub := false, selectionSub := false, editorSubs := false },
      false⟩

/-- External events the subscriptions react to, plus the elapsing of the
debounce timer. -/
inductive Ev where
  | selectionChanged
  | activeItemChanged
  | configChanged (t : Nat)
  | debounceFire
deriving DecidableEq, Repr

/-- One event step. A subscription callback runs only while its subscription
is live; the config store itself updates on configChanged regardless. The
debounce timer, when pending, invokes searchModel.handleSelection once. -/
def step (ev : Ev) (w : World) : World :=
  match ev with
  | .selectionChanged => if w.selectionSub then debouncedHandleSelectionW w else w
  | .activeItemChanged =>
      if w.activeItemSub then subscribeToActiveTextEditorW (debouncedHandleSelectionW w)
      else w
  | .configChanged t =>
      let w1 := { w with configTimeout := t }
      if w1.timeoutSub then debouncedHandleSelectionW w1 else w1
  | .debounceFire =>
      match w.wrapper with
      | some d =>
          if d.pending then
            { w with wrapper := some ⟨d.delay, false⟩, searchCalls := w.searchCalls + 1 }
          else w
      | none => w

/-- A sequence of event steps. -/
def stepList (evs : List Ev) (w : World) : World :=
  List.foldl (fun acc e => step e acc) w evs

/-- Example ranges from the spec: two single-line highlights on rows 0 and 2. -/
def exRanges : List Range :=
  [⟨⟨0, some 0⟩, ⟨0, some 4⟩⟩, ⟨⟨2, some 0⟩, ⟨2, some 3⟩⟩]

/-- A concrete active editor: a 4-line buffer with line lengths 5, 0, 3, 6. -/
def exEditor : Editor :=
  ⟨7, "hello\n\nabc\nabcdef", [], []⟩

/-- A concrete post-construction world: the active editor has a registry entry
whose two layers hold the example ranges, the debounce wrapper was built with
delay 20, and all four subscriptions are live. -/
def exWorld : World :=
  ⟨[[⟨⟨0, some 0⟩, ⟨0, some 4⟩⟩], [⟨⟨2, some 0⟩, ⟨2, some 3⟩⟩]],
    some exEditor, [(7, ⟨0, 1⟩)], 2, none, false, [], some ⟨20, false⟩, 20,
    true, true, true, true, 0⟩

/-- The complement of exRanges on the exEditor buffer. -/
def exCandids : List Range :=
  [⟨⟨1, some 0⟩, ⟨1, some 0⟩⟩, ⟨⟨3, some 0⟩, ⟨3, some 6⟩⟩]

/-- exWorld after a foldNonSelected: complement folded, FoldState non-null. -/
def exWorldFolded : World :=
  { exWorld with
      active := some { exEditor with folds := exCandids },
      hideCandids := some exCandids }

/-- exWorld with no active editor (no document focused). -/
def noEditorWorld : World :=
  { exWorld with active := none }

/-- exWorld whose active editor has no registry entry. -/
def noEntryWorld : World :=
  { exWorld with map := [] }

/-- exWorld in the Disabled state with a debounced invocation pending. -/
def disabledWorld : World :=
  { exWorld with disabled := true, wrapper := some ⟨20, true⟩ }

theorem rowCovered_append {a b : List Range} {x : Int} :
    rowCovered (a ++ b) x ↔ rowCovered a x ∨ rowCovered b x := by
  constructor
  · rintro ⟨r, hr, hc⟩
    rcases List.mem_append.mp hr with h | h
    · exact Or.inl ⟨r, h, hc⟩
    · exact Or.inr ⟨r, h, hc⟩
  · rintro (⟨r, hr, hc⟩ | ⟨r, hr, hc⟩)
    · exact ⟨r, List.mem_append.mpr (Or.inl hr), hc⟩
    · exact ⟨r, List.mem_append.mpr (Or.inr hr), hc⟩

theorem gapCandids_cons (rowLengths : List Nat) (r0 r1 : Range) (rs : List Range) :
    gapCandids rowLengths (r0 :: r1 :: rs) =
      (if r0.stop.row + 1 ≤ r1.start.row - 1 then
         [⟨⟨r0.stop.row + 1, some 0⟩,
           ⟨r1.start.row - 1, lineLen rowLengths (r1.start.row - 1)⟩⟩]
       else [])
        ++ gapCandids rowLengths (r1 :: rs) := rfl

theorem lastRange_cons (r0 r1 : Range) (rs : List Range) :
    lastRange r0 (r1 :: rs) = lastRange r1 rs := rfl

/-- In a well-formed sorted list, every member starts no earlier than the
first element. -/
theorem start_mono {l : List Range} {r0 r : Range}
    (hwf : wfRanges (r0 :: l)) (hch : sortedRanges (r0 :: l))
    (hr : r ∈ r0 :: l) : r0.start.row ≤ r.start.row := by
  induction l generalizing r0 with
  | nil =>
    simp only [List.mem_singleton] at hr
    subst hr; exact le_refl _
  | cons r1 rs ih =>
    rcases List.mem_cons.mp hr with h | h
    · subst h; exact le_refl _
    · have h01 : r0.stop.row ≤ r1.start.row := (List.chain'_cons.mp hch).1
      have hrec := ih (fun s hs => hwf s (List.mem_cons_of_mem _ hs))
        (List.chain'_cons.mp hch).2 h
      have hwf0 := hwf r0 (List.mem_cons_self _ _)
      omega

/-- In a well-formed sorted list, every member ends no later than the last
element. -/
theorem stop_le_last {l : List Range} {r0 r : Range}
    (hwf : wfRanges (r0 :: l)) (hch : sortedRanges (r0 :: l))
    (hr : r ∈ r0 :: l) : r.stop.row ≤ (lastRange r0 l).stop.row := by
  induction l generalizing r0 r with
  | nil =>
    simp only [List.mem_singleton] at hr
    subst hr; simp [lastRange]
  | cons r1 rs ih =>
    have h01 : r0.stop.row ≤ r1.start.row := (List.chain'_cons.mp hch).1
    have hwf1 : r1.start.row ≤ r1.stop.row := hwf r1 (by simp)
    have hwftl : wfRanges (r1 :: rs) := fun s hs => hwf s (List.mem_cons_of_mem _ hs)
    have hchtl : sortedRanges (r1 :: rs) := (List.chain'_cons.mp hch).2
    rw [lastRange_cons]
    rcases List.mem_cons.mp hr with h | h
    · subst h
      have := ih hwftl hchtl (List.mem_cons_self r1 rs)
      omega
    · exact ih hwftl hchtl h


/-- The gap candidates cover every row inside the span of the range list that
no range covers. -/
theorem gaps_cover (rowLengths : List Nat) {l : List Range} {r0 : Range} {x : Int}
    (hwf : wfRanges (r0 :: l)) (hch : sortedRanges (r0 :: l))
    (hnc : ¬ rowCovered (r0 :: l) x)
    (hlo : r0.start.row ≤ x) (hhi : x ≤ (lastRange r0 l).stop.row) :
    rowCovered (gapCandids rowLengths (r0 :: l)) x := by
  induction l generalizing r0 with
  | nil =>
    exact absurd ⟨r0, List.mem_singleton_self r0, hlo, by simpa [lastRange] using hhi⟩ hnc
  | cons r1 rs ih =>
    have h0 : ¬ coversRow r0 x := fun h => hnc ⟨r0, List.mem_cons_self _ _, h⟩
    have hx0 : r0.stop.row < x := by
      rcases lt_or_le r0.stop.row x with h | h
      · exact h
      · exact absurd ⟨hlo, h⟩ h0
    rw [gapCandids_cons, rowCovered_append]
    by_cases hx1 : x < r1.start.row
    · left
      have hguard : r0.stop.row + 1 ≤ r1.start.row - 1 := by omega
      refine ⟨⟨⟨r0.stop.row + 1, some 0⟩,
        ⟨r1.start.row - 1, lineLen rowLengths (r1.start.row - 1)⟩⟩, ?_, ?_⟩
      · simp [hguard]
      · exact ⟨(by omega : r0.stop.row + 1 ≤ x), (by omega : x ≤ r1.start.row - 1)⟩
    · right
      push_neg at hx1
      have hnc' : ¬ rowCovered (r1 :: rs) x := by
        rintro ⟨r, hm, hc⟩
        exact hnc ⟨r, List.mem_cons_of_mem _ hm, hc⟩
      exact ih (fun s hs => hwf s (List.mem_cons_of_mem _ hs))
        (List.chain'_cons.mp hch).2 hnc' hx1 (by rwa [lastRange_cons] at hhi)

/-- Any row covered by a gap candidate lies strictly inside the span of the
range list and is covered by no range of the list. -/
theorem gaps_disjoint (rowLengths : List Nat) {l : List Range} {r0 : Range} {x : Int}
    (hwf : wfRanges (r0 :: l)) (hch : sortedRanges (r0 :: l))
    (hg : rowCovered (gapCandids rowLengths (r0 :: l)) x) :
    r0.start.row < x ∧ x < (lastRange r0 l).stop.row ∧ ¬ rowCovered (r0 :: l) x := by
  induction l generalizing r0 with
  | nil =>
    simp [gapCandids, rowCovered] at hg
  | cons r1 rs ih =>
    have h01 : r0.stop.row ≤ r1.start.row := (List.chain'_cons.mp hch).1
    have hwf0 : r0.start.row ≤ r0.stop.row := hwf r0 (List.mem_cons_self _ _)
    have hwf1 : r1.start.row ≤ r1.stop.row := hwf r1 (by simp)
    have hwftl : wfRanges (r1 :: rs) := fun s hs => hwf s (List.mem_cons_of_mem _ hs)
    have hchtl : sortedRanges (r1 :: rs) := (List.chain'_cons.mp hch).2
    rw [gapCandids_cons, rowCovered_append] at hg
    rw [lastRange_cons]
    rcases hg with helem | hrec
    · by_cases hguard : r0.stop.row + 1 ≤ r1.start.row - 1
      · simp only [hguard, if_pos] at helem
        rcases helem with ⟨g, hgm, hgc⟩
        simp only [List.mem_singleton] at hgm
        subst hgm
        rcases hgc with ⟨hgc1, hgc2⟩
        have hgx1 : r0.stop.row + 1 ≤ x := hgc1
        have hgx2 : x ≤ r1.start.row - 1 := hgc2
        have hlastge : r1.stop.row ≤ (lastRange r1 rs).stop.row :=
          stop_le_last hwftl hchtl (List.mem_cons_self _ _)
        refine ⟨by omega, by omega, ?_⟩
        rintro ⟨r, hm, hc1, hc2⟩
        rcases List.mem_cons.mp hm with h | h
        · subst h; omega
        · have := start_mono hwftl hchtl h
          omega
      · simp [hguard, rowCovered] at helem
    · rcases ih hwftl hchtl hrec with ⟨hb1, hb2, hb3⟩
      refine ⟨by omega, hb2, ?_⟩
      rintro ⟨r, hm, hc1, hc2⟩
      rcases List.mem_cons.mp hm with h | h
      · subst h; omega
      · exact hb3 ⟨r, h, hc1, hc2⟩

theorem head_covered {r0 : Range} {rowLengths : List Nat} {x : Int} :
    rowCovered (headCandids r0 rowLengths) x ↔
      (r0.start.row ≠ 0 ∧ 0 ≤ x ∧ x ≤ r0.start.row - 1) := by
  by_cases h : r0.start.row ≠ 0 <;>
    simp [headCandids, h, rowCovered, coversRow]

theorem tail_covered {rL : Range} {rowLengths : List Nat} {x : Int} :
    rowCovered (tailCandids rL rowLengths) x ↔
      (rL.stop.row ≠ (rowLengths.length : Int) - 1 ∧
        rL.stop.row + 1 ≤ x ∧ x ≤ (rowLengths.length : Int) - 1) := by
  by_cases h : rL.stop.row ≠ (rowLengths.length : Int) - 1 <;>
    simp [tailCandids, h, rowCovered, coversRow]

theorem gapCandids_eq_zip (rowLengths : List Nat) (r0 : Range) (rest : List Range) :
    gapCandids rowLengths (r0 :: rest) =
      ((r0 :: rest).zip rest).filterMap (fun p =>
        if p.1.stop.row + 1 ≤ p.2.start.row - 1 then
          some ⟨⟨p.1.stop.row + 1, some 0⟩,
            ⟨p.2.start.row - 1, lineLen rowLengths (p.2.start.row - 1)⟩⟩
        else none) := by
  induction rest generalizing r0 with
  | nil => rfl
  | cons r1 rs ih =>
    rw [gapCandids_cons]
    have hzip : (r0 :: r1 :: rs).zip (r1 :: rs) = (r0, r1) :: (r1 :: rs).zip rs := rfl
    rw [hzip, List.filterMap_cons]
    by_cases hguard : r0.stop.row + 1 ≤ r1.start.row - 1
    · simp [hguard, ih]
    · simp [hguard, ih]

/-- Claim C1: for sorted, pairwise non-overlapping, well-formed ranges and a
document of rowLengths.length lines, every row 0..lastLine is covered either
by an input range or by a complement range computed inside foldNonSelected,
and never by both. -/
theorem C1_complement_partitions_rows
    (ranges : List Range) (rowLengths : List Nat)
    (hne : ranges ≠ [])
    (hwf : wfRanges ranges) (hch : sortedRanges ranges)
    (x : Int) (hx0 : 0 ≤ x) (hx1 : x ≤ (rowLengths.length : Int) - 1) :
    (rowCovered ranges x ∨ rowCovered (hideCandidates ranges rowLengths) x) ∧
      ¬ (rowCovered ranges x ∧ rowCovered (hideCandidates ranges rowLengths) x) := by
  obtain ⟨r0, rest, rfl⟩ := List.exists_cons_of_ne_nil hne
  have hsplit : hideCandidates (r0 :: rest) rowLengths =
      headCandids r0 rowLengths ++ gapCandids rowLengths (r0 :: rest)
        ++ tailCandids (lastRange r0 rest) rowLengths := rfl
  rw [hsplit, rowCovered_append, rowCovered_append]
  by_cases hA : x < r0.start.row
  · have hhead : rowCovered (headCandids r0 rowLengths) x :=
      head_covered.mpr ⟨by omega, hx0, by omega⟩
    have hnr : ¬ rowCovered (r0 :: rest) x := by
      rintro ⟨r, hm, hc1, hc2⟩
      have := start_mono hwf hch hm
      omega
    exact ⟨Or.inr (Or.inl (Or.inl hhead)), fun h => hnr h.1⟩
  by_cases hB : (lastRange r0 rest).stop.row < x
  · have htail : rowCovered (tailCandids (lastRange r0 rest) rowLengths) x :=
      tail_covered.mpr ⟨by omega, by omega, hx1⟩
    have hnr : ¬ rowCovered (r0 :: rest) x := by
      rintro ⟨r, hm, hc1, hc2⟩
      have := stop_le_last hwf hch hm
      omega
    exact ⟨Or.inr (Or.inr htail), fun h => hnr h.1⟩
  push_neg at hA hB
  by_cases hc : rowCovered (r0 :: rest) x
  · refine ⟨Or.inl hc, ?_⟩
    rintro ⟨-, (hh | hg) | ht⟩
    · rcases head_covered.mp hh with ⟨-, -, hle⟩
      omega
    · exact (gaps_disjoint rowLengths hwf hch hg).2.2 hc
    · rcases tail_covered.mp ht with ⟨-, hge, -⟩
      omega
  · exact ⟨Or.inr (Or.inl (Or.inr (gaps_cover rowLengths hwf hch hc hA hB))),
      fun h => hc h.1⟩

/-- Witness for C1 at the spec example, row 1. -/
theorem C1_complement_partitions_rows_witness :
    (rowCovered exRanges 1 ∨ rowCovered (hideCandidates exRanges [5, 0, 3, 6]) 1) ∧
      ¬ (rowCovered exRanges 1 ∧ rowCovered (hideCandidates exRanges [5, 0, 3, 6]) 1) :=
  C1_complement_partitions_rows exRanges [5, 0, 3, 6] (by decide) (by decide)
    (List.chain'_cons.mpr ⟨by decide, List.chain'_singleton _⟩) 1 (by decide) (by decide)

/-- Claim C2: the complement computed in foldNonSelected is, in order, a head
range exactly when the first range does not start at row 0, a gap range for
each adjacent pair exactly when end.row + 1 is at most the next start.row - 1,
and a tail range exactly when the last range does not end on the last line;
and on the spec example it evaluates to the expected two ranges. -/
theorem C2_emission_structure :
    (∀ (r0 : Range) (rest : List Range) (rowLengths : List Nat),
      hideCandidates (r0 :: rest) rowLengths =
        (if r0.start.row ≠ 0 then
           [⟨⟨0, some 0⟩, ⟨r0.start.row - 1, lineLen rowLengths (r0.start.row - 1)⟩⟩]
         else [])
        ++ ((r0 :: rest).zip rest).filterMap (fun p =>
             if p.1.stop.row + 1 ≤ p.2.start.row - 1 then
               some ⟨⟨p.1.stop.row + 1, some 0⟩,
                 ⟨p.2.start.row - 1, lineLen rowLengths (p.2.start.row - 1)⟩⟩
             else none)
        ++ (if (lastRange r0 rest).stop.row ≠ (rowLengths.length : Int) - 1 then
              [⟨⟨(lastRange r0 rest).stop.row + 1, some 0⟩,
                ⟨(rowLengths.length : Int) - 1,
                  lineLen rowLengths ((rowLengths.length : Int) - 1)⟩⟩]
            else []))
    ∧ hideCandidates exRanges [5, 0, 3, 6] =
        [⟨⟨1, some 0⟩, ⟨1, some 0⟩⟩, ⟨⟨3, some 0⟩, ⟨3, some 6⟩⟩] := by
  constructor
  · intro r0 rest rowLengths
    show headCandids r0 rowLengths ++ gapCandids rowLengths (r0 :: rest)
        ++ tailCandids (lastRange r0 rest) rowLengths = _
    rw [gapCandids_eq_zip]
    rfl
  · decide

/-- Claim C3, evaluated at the failing input: with no active editor,
selectAll, foldNonSelected, unfoldNonSelected and toogleFoldNonSelected all
dereference the missing editor and throw, instead of being silent no-ops. -/
theorem C3_no_active_editor_throws :
    (selectAllW noEditorWorld).threw = true ∧
    (foldNonSelectedW noEditorWorld).threw = true ∧
    (unfoldNonSelectedW noEditorWorld).threw = true ∧
    (toogleFoldNonSelectedW noEditorWorld).threw = true := by
  decide

/-- Claim C5 counterexample: with an active editor that has no registry entry
and FoldState null, foldNonSelected changes FoldState to the empty list, so
the orchestrator state is not left unchanged as the claim states. -/
theorem C5_counterexample :
    mapLookup noEntryWorld.map 7 = none ∧
    noEntryWorld.hideCandids = none ∧
    (foldNonSelectedW noEntryWorld).world.hideCandids = some [] ∧
    (foldNonSelectedW noEntryWorld).world.hideCandids ≠ noEntryWorld.hideCandids := by
  decide

/-- Claim C5 as amended: on the no-registry-entry and no-highlighted-ranges
paths, foldNonSelected makes no fold request and leaves every component of the
state unchanged except FoldState, which it always resets to the empty list
before those checks. -/
theorem C5_amended_fold_noop_but_resets_foldstate
    (w : World) (ed : Editor)
    (hact : w.active = some ed)
    (hnop : mapLookup w.map ed.id = none ∨
      ∃ lp, mapLookup w.map ed.id = some lp ∧ getMarkersOf w lp = []) :
    (foldNonSelectedW w).threw = false ∧
    (foldNonSelectedW w).world = { w with hideCandids := some [] } := by
  rcases hnop with hnone | ⟨lp, hlp, hempty⟩
  · have hstep : foldNonSelectedW w = ⟨{ w with hideCandids := some [] }, false⟩ := by
      unfold foldNonSelectedW
      simp only [hact, hnone]
    rw [hstep]
    exact ⟨rfl, rfl⟩
  · have hg : getMarkersOf { w with active := some ed, hideCandids := some [] } lp =
        getMarkersOf w lp := rfl
    have hstep : foldNonSelectedW w = ⟨{ w with hideCandids := some [] }, false⟩ := by
      unfold foldNonSelectedW
      simp only [hact, hlp, hg, hempty, List.length_nil, gt_iff_lt, lt_self_iff_false,
        if_false]
    rw [hstep]
    exact ⟨rfl, rfl⟩

/-- Witness for the amended C5 at the concrete no-entry world. -/
theorem C5_amended_fold_noop_but_resets_foldstate_witness :
    (foldNonSelectedW noEntryWorld).threw = false ∧
    (foldNonSelectedW noEntryWorld).world = { noEntryWorld with hideCandids := some [] } :=
  C5_amended_fold_noop_but_resets_foldstate noEntryWorld exEditor rfl (Or.inl (by decide))

/-- Evaluation of foldNonSelected on the main path: active editor present,
registry entry present, at least one collected range. -/
theorem foldNonSelectedW_spec (w : World) (ed : Editor) (lp : LayerPair)
    (hact : w.active = some ed) (hlp : mapLookup w.map ed.id = some lp)
    (hne : getMarkersOf w lp ≠ []) :
    foldNonSelectedW w =
      ⟨{ w with
           hideCandids :=
             some (hideCandidates (getMarkersOf w lp) (bufferRowLengths ed)),
           active := some { ed with
             folds := ed.folds
               ++ hideCandidates (getMarkersOf w lp) (bufferRowLengths ed) } },
        false⟩ := by
  have hg : getMarkersOf { w with active := some ed, hideCandids := some [] } lp =
      getMarkersOf w lp := rfl
  have hpos : 0 < (getMarkersOf w lp).length := List.length_pos.mpr hne
  unfold foldNonSelectedW
  simp only [hact, hlp, hg, gt_iff_lt, hpos, if_true]

/-- Evaluation of unfoldNonSelected when an active editor is present. -/
theorem unfoldNonSelectedW_spec (w : World) (ed : Editor) (hact : w.active = some ed) :
    unfoldNonSelectedW w =
      ⟨{ w with active := some { ed with folds := [] }, hideCandids := none }, false⟩ := by
  unfold unfoldNonSelectedW
  rw [hact]

/-- Claim C4: with an active editor that has highlighted ranges,
foldNonSelected followed by unfoldNonSelected leaves the editor fully
unfolded with FoldState null; and two toogleFoldNonSelected calls with no
intervening highlight change restore the original FoldState, both from the
Unfolded state and from the Folded state. -/
theorem C4_fold_unfold_inverse_and_toggle_roundtrip
    (w : World) (ed : Editor) (lp : LayerPair)
    (hact : w.active = some ed) (hlp : mapLookup w.map ed.id = some lp)
    (hne : getMarkersOf w lp ≠ []) :
    ((unfoldNonSelectedW (foldNonSelectedW w).world).world.hideCandids = none ∧
      (∃ ed2, (unfoldNonSelectedW (foldNonSelectedW w).world).world.active = some ed2 ∧
        ed2.folds = [])) ∧
    (w.hideCandids = none →
      (toogleFoldNonSelectedW (toogleFoldNonSelectedW w).world).world.hideCandids
        = none) ∧
    (w.hideCandids = some (hideCandidates (getMarkersOf w lp) (bufferRowLengths ed)) →
      (toogleFoldNonSelectedW (toogleFoldNonSelectedW w).world).world.hideCandids
        = w.hideCandids) := by
  have hfold := foldNonSelectedW_spec w ed lp hact hlp hne
  refine ⟨?_, ?_, ?_⟩
  · rw [hfold]
    rw [unfoldNonSelectedW_spec _
      { ed with folds := ed.folds
          ++ hideCandidates (getMarkersOf w lp) (bufferRowLengths ed) } rfl]
    exact ⟨rfl, ⟨_, rfl, rfl⟩⟩
  · intro hnone
    have ht1 : toogleFoldNonSelectedW w = foldNonSelectedW w := by
      unfold toogleFoldNonSelectedW
      rw [hnone]
    rw [ht1, hfold]
    rw [show toogleFoldNonSelectedW
        { w with
            hideCandids :=
              some (hideCandidates (getMarkersOf w lp) (bufferRowLengths ed)),
            active := some { ed with
              folds := ed.folds
                ++ hideCandidates (getMarkersOf w lp) (bufferRowLengths ed) } } =
      unfoldNonSelectedW
        { w with
            hideCandids :=
              some (hideCandidates (getMarkersOf w lp) (bufferRowLengths ed)),
            active := some { ed with
              folds := ed.folds
                ++ hideCandidates (getMarkersOf w lp) (bufferRowLengths ed) } }
      from rfl]
    rw [unfoldNonSelectedW_spec _
      { ed with folds := ed.folds
          ++ hideCandidates (getMarkersOf w lp) (bufferRowLengths ed) } rfl]
  · intro hsome
    have ht1 : toogleFoldNonSelectedW w = unfoldNonSelectedW w := by
      unfold toogleFoldNonSelectedW
      rw [hsome]
    rw [ht1, unfoldNonSelectedW_spec w ed hact]
    have ht2 : toogleFoldNonSelectedW
        { w with active := some { ed with folds := [] }, hideCandids := none } =
      foldNonSelectedW
        { w with active := some { ed with folds := [] }, hideCandids := none } := rfl
    rw [ht2, foldNonSelectedW_spec
      { w with active := some { ed with folds := [] }, hideCandids := none }
      { ed with folds := [] } lp rfl hlp hne]
    rw [hsome]
    rfl

/-- Witness for C4: parts applied at the concrete unfolded and folded
worlds. -/
theorem C4_fold_unfold_inverse_and_toggle_roundtrip_witness :
    ((unfoldNonSelectedW (foldNonSelectedW exWorld).world).world.hideCandids = none ∧
      (∃ ed2, (unfoldNonSelectedW (foldNonSelectedW exWorld).world).world.active
          = some ed2 ∧ ed2.folds = [])) ∧
    (toogleFoldNonSelectedW (toogleFoldNonSelectedW exWorld).world).world.hideCandids
      = none ∧
    (toogleFoldNonSelectedW
        (toogleFoldNonSelectedW exWorldFolded).world).world.hideCandids
      = exWorldFolded.hideCandids := by
  have h1 := C4_fold_unfold_inverse_and_toggle_roundtrip exWorld exEditor ⟨0, 1⟩
    rfl (by decide) (by decide)
  have h2 := C4_fold_unfold_inverse_and_toggle_roundtrip exWorldFolded
    { exEditor with folds := exCandids } ⟨0, 1⟩ rfl (by decide) (by decide)
  exact ⟨h1.1, h1.2.1 rfl, h2.2.2 (by decide)⟩

/-- Replacing the entry for a present key makes lookup return the new value. -/
theorem mapLookup_replace (m : List (Nat × LayerPair)) (k : Nat) (v : LayerPair)
    (h : (m.find? (fun p => p.1 == k)).isSome = true) :
    mapLookup (m.map (fun p => if p.1 == k then (k, v) else p)) k = some v := by
  induction m with
  | nil => simp [List.find?] at h
  | cons a as ih =>
    rw [List.map_cons]
    by_cases hk : (a.1 == k) = true
    · rw [if_pos hk]
      unfold mapLookup
      simp [List.find?_cons]
    · have hk2 : (a.1 == k) = false := by
        cases hcase : (a.1 == k)
        · rfl
        · exact absurd hcase hk
      rw [if_neg hk]
      unfold mapLookup
      simp only [List.find?_cons, hk2]
      have htl : (as.find? (fun p => p.1 == k)).isSome = true := by
        rw [List.find?] at h
        simp only [hk2] at h
        exact h
      exact ih htl

/-- After the delete operator, lookup of the deleted key yields nothing. -/
theorem mapLookup_mapErase (m : List (Nat × LayerPair)) (k : Nat) :
    mapLookup (mapErase m k) k = none := by
  induction m with
  | nil => rfl
  | cons a as ih =>
    unfold mapErase at ih ⊢
    rw [List.filter_cons]
    by_cases hk : (a.1 != k) = true
    · rw [if_pos hk]
      unfold mapLookup
      rw [List.find?_cons_of_neg]
      · exact ih
      · simp only [bne_iff_ne, ne_eq] at hk
        simp [hk]
    · rw [if_neg hk]
      exact ih

/-- Claim C8: setupMarkerLayers always allocates two fresh handles and stores
them as the entry, even when an entry exists; the old handles keep their
markers, remain allocated, and are no longer reachable from the registry. -/
theorem C8_setup_replaces_with_fresh_handles
    (w : World) (edId : Nat) (old : LayerPair)
    (hold : mapLookup w.map edId = some old)
    (hv : old.visibleMarkerLayer < w.layers.length)
    (hs : old.selectedMarkerLayer < w.layers.length) :
    mapLookup (setupMarkerLayersW w edId).map edId =
      some ⟨w.layers.length, w.layers.length + 1⟩ ∧
    (setupMarkerLayersW w edId).layers.length = w.layers.length + 2 ∧
    (setupMarkerLayersW w edId).layers[old.visibleMarkerLayer]? =
      w.layers[old.visibleMarkerLayer]? ∧
    (setupMarkerLayersW w edId).layers[old.selectedMarkerLayer]? =
      w.layers[old.selectedMarkerLayer]? ∧
    old.visibleMarkerLayer ≠ w.layers.length ∧
    old.visibleMarkerLayer ≠ w.layers.length + 1 ∧
    old.selectedMarkerLayer ≠ w.layers.length ∧
    old.selectedMarkerLayer ≠ w.layers.length + 1 := by
  have hfind : (w.map.find? (fun p => p.1 == edId)).isSome = true := by
    unfold mapLookup at hold
    cases hf : w.map.find? (fun p => p.1 == edId) with
    | none => rw [hf] at hold; simp at hold
    | some p => rfl
  have hsetup : setupMarkerLayersW w edId =
      { w with
          layers := w.layers ++ [[]] ++ [[]],
          map := mapSet w.map edId
            ⟨w.layers.length, (w.layers ++ [[]]).length⟩ } := rfl
  have hlen1 : (w.layers ++ [[]]).length = w.layers.length + 1 := by simp
  refine ⟨?_, ?_, ?_, ?_, by omega, by omega, by omega, by omega⟩
  · rw [hsetup]
    show mapLookup (mapSet w.map edId ⟨w.layers.length, (w.layers ++ [[]]).length⟩)
        edId = _
    rw [hlen1]
    unfold mapSet
    rw [if_pos hfind]
    exact mapLookup_replace w.map edId _ hfind
  · rw [hsetup]
    show (w.layers ++ [[]] ++ [[]]).length = w.layers.length + 2
    simp
  · rw [hsetup]
    show (w.layers ++ [[]] ++ [[]])[old.visibleMarkerLayer]? = _
    rw [List.append_assoc, List.getElem?_append_left hv]
  · rw [hsetup]
    show (w.layers ++ [[]] ++ [[]])[old.selectedMarkerLayer]? = _
    rw [List.append_assoc, List.getElem?_append_left hs]

/-- Witness for C8 at the concrete world, whose entry holds handles 0 and 1
over a store of two layers. -/
theorem C8_setup_replaces_with_fresh_handles_witness :
    mapLookup (setupMarkerLayersW exWorld 7).map 7 = some ⟨2, 3⟩ ∧
    (setupMarkerLayersW exWorld 7).layers.length = 4 ∧
    (setupMarkerLayersW exWorld 7).layers[0]? = exWorld.layers[0]? ∧
    (setupMarkerLayersW exWorld 7).layers[1]? = exWorld.layers[1]? := by
  have h := C8_setup_replaces_with_fresh_handles exWorld 7 ⟨0, 1⟩
    (by decide) (by decide) (by decide)
  exact ⟨h.1, h.2.1, h.2.2.1, h.2.2.2.1⟩

/-- Claim C9: removeMarkers clears both layers, resets the result count and
emits did-remove-marker-layer when an entry exists; is a silent no-op when no
entry exists; and after a removeMarkers followed by dropping the entry, the
registry has no entry and a further removeMarkers is again a no-op. -/
theorem C9_removeMarkers_contract (w : World) (editorId : Nat) :
    (∀ lp, mapLookup w.map editorId = some lp →
      removeMarkersW w editorId =
        { w with
            layers := clearLayer (clearLayer w.layers lp.visibleMarkerLayer)
              lp.selectedMarkerLayer,
            resultCount := 0,
            events := w.events ++ ["did-remove-marker-layer"] }) ∧
    (mapLookup w.map editorId = none → removeMarkersW w editorId = w) ∧
    mapLookup (dropEntryW (removeMarkersW w editorId) editorId).map editorId = none ∧
    removeMarkersW (dropEntryW (removeMarkersW w editorId) editorId) editorId =
      dropEntryW (removeMarkersW w editorId) editorId := by
  have herase : ∀ v : World, mapLookup (dropEntryW v editorId).map editorId = none :=
    fun v => mapLookup_mapErase v.map editorId
  have hnoop : ∀ v : World, mapLookup v.map editorId = none →
      removeMarkersW v editorId = v := by
    intro v hv
    unfold removeMarkersW
    rw [hv]
  refine ⟨?_, hnoop w, herase _, hnoop _ (herase _)⟩
  · intro lp hlp
    unfold removeMarkersW
    rw [hlp]

/-- Witness for C9 at the concrete world with entry (7, handles 0 and 1). -/
theorem C9_removeMarkers_contract_witness :
    removeMarkersW exWorld 7 =
      { exWorld with
          layers := clearLayer (clearLayer exWorld.layers 0) 1,
          resultCount := 0,
          events := exWorld.events ++ ["did-remove-marker-layer"] } ∧
    mapLookup (dropEntryW (removeMarkersW exWorld 7) 7).map 7 = none ∧
    removeMarkersW (dropEntryW (removeMarkersW exWorld 7) 7) 7 =
      dropEntryW (removeMarkersW exWorld 7) 7 := by
  have h := C9_removeMarkers_contract exWorld 7
  exact ⟨h.1 ⟨0, 1⟩ (by decide), h.2.2.1, h.2.2.2⟩

/-- removeMarkers touches only layers, resultCount and events. -/
theorem removeMarkersW_frame (w : World) (editorId : Nat) :
    (removeMarkersW w editorId).wrapper = w.wrapper ∧
    (removeMarkersW w editorId).searchCalls = w.searchCalls ∧
    (removeMarkersW w editorId).disabled = w.disabled ∧
    (removeMarkersW w editorId).selectionSub = w.selectionSub ∧
    (removeMarkersW w editorId).activeItemSub = w.activeItemSub ∧
    (removeMarkersW w editorId).timeoutSub = w.timeoutSub := by
  unfold removeMarkersW
  cases hm : mapLookup w.map editorId with
  | none => exact ⟨rfl, rfl, rfl, rfl, rfl, rfl⟩
  | some lp => exact ⟨rfl, rfl, rfl, rfl, rfl, rfl⟩

/-- The frame of removeMarkers extended over removeAllMarkers' fold. -/
theorem foldl_removeMarkersW_frame (ids : List Nat) (w : World) :
    (List.foldl removeMarkersW w ids).wrapper = w.wrapper ∧
    (List.foldl removeMarkersW w ids).searchCalls = w.searchCalls ∧
    (List.foldl removeMarkersW w ids).disabled = w.disabled ∧
    (List.foldl removeMarkersW w ids).selectionSub = w.selectionSub ∧
    (List.foldl removeMarkersW w ids).activeItemSub = w.activeItemSub ∧
    (List.foldl removeMarkersW w ids).timeoutSub = w.timeoutSub := by
  induction ids generalizing w with
  | nil => exact ⟨rfl, rfl, rfl, rfl, rfl, rfl⟩
  | cons i is ih =>
    rw [List.foldl_cons]
    have h1 := removeMarkersW_frame w i
    have h2 := ih (removeMarkersW w i)
    exact ⟨h2.1.trans h1.1, h2.2.1.trans h1.2.1, h2.2.2.1.trans h1.2.2.1,
      h2.2.2.2.1.trans h1.2.2.2.1, h2.2.2.2.2.1.trans h1.2.2.2.2.1,
      h2.2.2.2.2.2.trans h1.2.2.2.2.2⟩

/-- disable() sets the flag and removes markers; the debounce wrapper, the
pending state, the call counter and the subscriptions are untouched. -/
theorem disableW_props (w : World) :
    (disableW w).disabled = true ∧
    (disableW w).wrapper = w.wrapper ∧
    (disableW w).searchCalls = w.searchCalls ∧
    (disableW w).selectionSub = w.selectionSub ∧
    (disableW w).activeItemSub = w.activeItemSub ∧
    (disableW w).timeoutSub = w.timeoutSub := by
  unfold disableW removeAllMarkersW
  have h := foldl_removeMarkersW_frame
    (({ w with disabled := true } : World).map.map (fun p => p.1))
    { w with disabled := true }
  exact ⟨h.2.2.1, h.1, h.2.1, h.2.2.2.1, h.2.2.2.2.1, h.2.2.2.2.2⟩

/-- Invoking the debounced entry point on an already-built wrapper keeps its
delay and marks an invocation pending. -/
theorem debounced_preserves_delay (w : World) (d : Wrapper) (h : w.wrapper = some d) :
    (debouncedHandleSelectionW w).wrapper = some ⟨d.delay, true⟩ := by
  unfold debouncedHandleSelectionW
  rw [h]

/-- subscribeToActiveTextEditor never touches the wrapper. -/
theorem subscribe_wrapper (w : World) :
    (subscribeToActiveTextEditorW w).wrapper = w.wrapper := by
  unfold subscribeToActiveTextEditorW
  cases hm : w.active with
  | none => rfl
  | some ed => rfl

/-- No event rebuilds or re-parameterises an existing wrapper: only its
pending flag can change. -/
theorem step_preserves_delay (e : Ev) (w : World) (d : Wrapper)
    (h : w.wrapper = some d) :
    ∃ p, (step e w).wrapper = some ⟨d.delay, p⟩ := by
  cases e with
  | selectionChanged =>
    simp only [step]
    by_cases hs : w.selectionSub = true
    · rw [if_pos hs]
      exact ⟨true, debounced_preserves_delay w d h⟩
    · rw [if_neg hs]
      exact ⟨d.pending, h⟩
  | activeItemChanged =>
    simp only [step]
    by_cases hs : w.activeItemSub = true
    · rw [if_pos hs]
      refine ⟨true, ?_⟩
      rw [subscribe_wrapper]
      exact debounced_preserves_delay w d h
    · rw [if_neg hs]
      exact ⟨d.pending, h⟩
  | configChanged t =>
    simp only [step]
    by_cases hs : w.timeoutSub = true
    · rw [if_pos hs]
      exact ⟨true, debounced_preserves_delay { w with configTimeout := t } d h⟩
    · rw [if_neg hs]
      exact ⟨d.pending, h⟩
  | debounceFire =>
    simp only [step, h]
    by_cases hp : d.pending = true
    · rw [if_pos hp]
      exact ⟨false, rfl⟩
    · rw [if_neg hp]
      exact ⟨d.pending, h⟩

/-- Delay preservation over any sequence of events. -/
theorem stepList_preserves_delay (evs : List Ev) (w : World) (d : Wrapper)
    (h : w.wrapper = some d) :
    ∃ p, (stepList evs w).wrapper = some ⟨d.delay, p⟩ := by
  induction evs generalizing w d with
  | nil => exact ⟨d.pending, h⟩
  | cons e es ih =>
    obtain ⟨p, hp⟩ := step_preserves_delay e w d h
    obtain ⟨q, hq⟩ := ih (step e w) ⟨d.delay, p⟩ hp
    exact ⟨q, hq⟩

/-- Claim C7: the wrapper is built on the first debouncedHandleSelection call
with the configuration value read at that moment; afterwards no event sequence
ever changes its delay; and a configuration change (with the listener live)
just runs the debounced entry point once, keeping the old delay. -/
theorem C7_wrapper_keeps_first_read_delay :
    (∀ w : World, w.wrapper = none →
      (debouncedHandleSelectionW w).wrapper = some ⟨w.configTimeout, true⟩) ∧
    (∀ (w : World) (d : Wrapper) (evs : List Ev), w.wrapper = some d →
      ∃ p, (stepList evs w).wrapper = some ⟨d.delay, p⟩) ∧
    (∀ (w : World) (d : Wrapper) (t : Nat), w.wrapper = some d →
      w.timeoutSub = true →
      step (Ev.configChanged t) w =
        debouncedHandleSelectionW { w with configTimeout := t } ∧
      (step (Ev.configChanged t) w).wrapper = some ⟨d.delay, true⟩) := by
  refine ⟨?_, ?_, ?_⟩
  · intro w hw
    unfold debouncedHandleSelectionW
    rw [hw]
  · exact fun w d evs h => stepList_preserves_delay evs w d h
  · intro w d t h hsub
    constructor
    · simp only [step]
      rw [if_pos hsub]
    · simp only [step]
      rw [if_pos hsub]
      exact debounced_preserves_delay { w with configTimeout := t } d h

/-- Witness for C7 at the concrete world with delay 20. -/
theorem C7_wrapper_keeps_first_read_delay_witness :
    (debouncedHandleSelectionW { exWorld with wrapper := none }).wrapper
      = some ⟨20, true⟩ ∧
    (∃ p, (stepList [Ev.configChanged 999, Ev.selectionChanged] exWorld).wrapper
      = some ⟨20, p⟩) ∧
    (step (Ev.configChanged 999) exWorld =
      debouncedHandleSelectionW { exWorld with configTimeout := 999 } ∧
     (step (Ev.configChanged 999) exWorld).wrapper = some ⟨20, true⟩) := by
  have h := C7_wrapper_keeps_first_read_delay
  exact ⟨h.1 { exWorld with wrapper := none } rfl,
    h.2.1 exWorld ⟨20, false⟩ [Ev.configChanged 999, Ev.selectionChanged] rfl,
    h.2.2 exWorld ⟨20, false⟩ 999 rfl rfl⟩

/-- A world with both reactive subscriptions disposed and no pending
invocation is untouched by selection, active-item and timer events. -/
theorem step_inert (v : World) (dd : Nat)
    (h1 : v.selectionSub = false) (h2 : v.activeItemSub = false)
    (h3 : v.wrapper = some ⟨dd, false⟩) (e : Ev)
    (he : e = Ev.selectionChanged ∨ e = Ev.activeItemChanged ∨ e = Ev.debounceFire) :
    step e v = v := by
  rcases he with rfl | rfl | rfl
  · simp [step, h1]
  · simp [step, h2]
  · simp only [step]
    rw [h3]
    simp

theorem stepList_inert (v : World) (dd : Nat)
    (h1 : v.selectionSub = false) (h2 : v.activeItemSub = false)
    (h3 : v.wrapper = some ⟨dd, false⟩) (evs : List Ev)
    (he : ∀ e ∈ evs, e = Ev.selectionChanged ∨ e = Ev.activeItemChanged ∨
      e = Ev.debounceFire) :
    stepList evs v = v := by
  induction evs with
  | nil => rfl
  | cons e es ih =>
    have hstep : step e v = v :=
      step_inert v dd h1 h2 h3 e (he e (List.mem_cons_self _ _))
    show List.foldl (fun acc e => step e acc) v (e :: es) = v
    rw [List.foldl_cons]
    show stepList es (step e v) = v
    rw [hstep]
    exact ih (fun e hm => he e (List.mem_cons_of_mem _ hm))

/-- Claim C6 as amended: destroy() cancels the pending debounced invocation
and disposes the active-item, selection and editor-lifecycle subscriptions,
after which selection, active-item and timer events are no-ops; but the
timeout-configuration subscription is never disposed, so a configuration
change after destroy() still schedules the debounced pipeline. -/
theorem C6_amended_destroy (w : World) (d : Wrapper) (hw : w.wrapper = some d) :
    (destroyW w).threw = false ∧
    (destroyW w).world.wrapper = some ⟨d.delay, false⟩ ∧
    (destroyW w).world.activeItemSub = false ∧
    (destroyW w).world.selectionSub = false ∧
    (destroyW w).world.editorSubs = false ∧
    (destroyW w).world.timeoutSub = w.timeoutSub ∧
    (∀ evs : List Ev,
      (∀ e ∈ evs, e = Ev.selectionChanged ∨ e = Ev.activeItemChanged ∨
        e = Ev.debounceFire) →
      stepList evs (destroyW w).world = (destroyW w).world) ∧
    (w.timeoutSub = true → ∀ t : Nat,
      (step (Ev.configChanged t) (destroyW w).world).wrapper
        = some ⟨d.delay, true⟩) := by
  have hd : destroyW w =
      ⟨{ w with
           wrapper := some ⟨d.delay, false⟩,
           activeItemSub := false, selectionSub := false, editorSubs := false },
        false⟩ := by
    unfold destroyW
    rw [hw]
  rw [hd]
  refine ⟨rfl, rfl, rfl, rfl, rfl, rfl, ?_, ?_⟩
  · intro evs he
    exact stepList_inert _ d.delay rfl rfl rfl evs he
  · intro hsub t
    simp only [step]
    rw [if_pos hsub]
    exact debounced_preserves_delay _ ⟨d.delay, false⟩ rfl

/-- Witness for the amended C6 at the concrete world. -/
theorem C6_amended_destroy_witness :
    (destroyW exWorld).threw = false ∧
    (destroyW exWorld).world.selectionSub = false ∧
    (destroyW exWorld).world.timeoutSub = true ∧
    stepList [Ev.selectionChanged, Ev.activeItemChanged, Ev.debounceFire]
      (destroyW exWorld).world = (destroyW exWorld).world ∧
    (step (Ev.configChanged 5) (destroyW exWorld).world).wrapper
      = some ⟨20, true⟩ := by
  have h := C6_amended_destroy exWorld ⟨20, false⟩ rfl
  exact ⟨h.1, h.2.2.2.1, h.2.2.2.2.2.1.trans rfl,
    h.2.2.2.2.2.2.1 _ (by decide), h.2.2.2.2.2.2.2 rfl 5⟩

/-- Claim C6 counterexample: after destroy() on the concrete world, a change
of the timeout configuration key still schedules the debounced pipeline, and
the next timer firing invokes searchModel.handleSelection, contradicting the
claim that no further events fire after destroy(). -/
theorem C6_counterexample :
    (destroyW exWorld).world.wrapper = some ⟨20, false⟩ ∧
    (step (Ev.configChanged 5) (destroyW exWorld).world).wrapper
      = some ⟨20, true⟩ ∧
    (step Ev.debounceFire
        (step (Ev.configChanged 5) (destroyW exWorld).world)).searchCalls =
      (destroyW exWorld).world.searchCalls + 1 := by
  decide

/-- Claim C10: the disabled flag gates nothing in the reactive pipeline.
disable() leaves the wrapper (and any pending invocation) alone, a pending
debounced call still fires afterwards, and selection-change, active-item and
configuration events run their handlers regardless of the flag, with
subscribeToActiveTextEditor calling handleSelection immediately. -/
theorem C10_pipeline_not_gated_by_disabled :
    (∀ w : World, (disableW w).disabled = true ∧ (disableW w).wrapper = w.wrapper ∧
      (disableW w).searchCalls = w.searchCalls) ∧
    (∀ (w : World) (dd : Nat), w.wrapper = some ⟨dd, true⟩ →
      (step Ev.debounceFire (disableW w)).searchCalls = w.searchCalls + 1) ∧
    (∀ w : World, w.selectionSub = true →
      step Ev.selectionChanged w = debouncedHandleSelectionW w) ∧
    (∀ w : World, w.activeItemSub = true →
      step Ev.activeItemChanged w =
        subscribeToActiveTextEditorW (debouncedHandleSelectionW w)) ∧
    (∀ (w : World) (ed : Editor), w.activeItemSub = true → w.active = some ed →
      (step Ev.activeItemChanged w).searchCalls = w.searchCalls + 1) ∧
    (∀ (w : World) (t : Nat), w.timeoutSub = true →
      step (Ev.configChanged t) w =
        debouncedHandleSelectionW { w with configTimeout := t }) := by
  refine ⟨?_, ?_, ?_, ?_, ?_, ?_⟩
  · intro w
    have h := disableW_props w
    exact ⟨h.1, h.2.1, h.2.2.1⟩
  · intro w dd h
    have hf := disableW_props w
    have hw2 : (disableW w).wrapper = some ⟨dd, true⟩ := hf.2.1.trans h
    simp only [step, hw2]
    rw [if_pos trivial]
    show (disableW w).searchCalls + 1 = w.searchCalls + 1
    rw [hf.2.2.1]
  · intro w h
    simp only [step]
    rw [if_pos h]
  · intro w h
    simp only [step]
    rw [if_pos h]
  · intro w ed h hact
    simp only [step]
    rw [if_pos h]
    have hda : (debouncedHandleSelectionW w).active = some ed := by
      unfold debouncedHandleSelectionW
      cases hw : w.wrapper with
      | none => exact hact
      | some d => exact hact
    have hds : (debouncedHandleSelectionW w).searchCalls = w.searchCalls := by
      unfold debouncedHandleSelectionW
      cases hw : w.wrapper with
      | none => rfl
      | some d => rfl
    unfold subscribeToActiveTextEditorW
    rw [show ({ debouncedHandleSelectionW w with selectionSub := false } : World).active
      = (debouncedHandleSelectionW w).active from rfl]
    rw [hda]
    show (debouncedHandleSelectionW w).searchCalls + 1 = w.searchCalls + 1
    rw [hds]
  · intro w t h
    simp only [step]
    rw [if_pos h]

/-- Witness for C10 at the concrete disabled world with a pending debounced
invocation. -/
theorem C10_pipeline_not_gated_by_disabled_witness :
    (disableW exWorld).disabled = true ∧
    (disableW exWorld).wrapper = exWorld.wrapper ∧
    (step Ev.debounceFire (disableW disabledWorld)).searchCalls
      = disabledWorld.searchCalls + 1 ∧
    step Ev.selectionChanged disabledWorld
      = debouncedHandleSelectionW disabledWorld ∧
    step Ev.activeItemChanged disabledWorld =
      subscribeToActiveTextEditorW (debouncedHandleSelectionW disabledWorld) ∧
    (step Ev.activeItemChanged disabledWorld).searchCalls
      = disabledWorld.searchCalls + 1 ∧
    step (Ev.configChanged 5) disabledWorld =
      debouncedHandleSelectionW { disabledWorld with configTimeout := 5 } := by
  have h := C10_pipeline_not_gated_by_disabled
  exact ⟨(h.1 exWorld).1, (h.1 exWorld).2.1,
    h.2.1 disabledWorld 20 rfl,
    h.2.2.1 disabledWorld rfl,
    h.2.2.2.1 disabledWorld rfl,
    h.2.2.2.2.1 disabledWorld exEditor rfl rfl,
    h.2.2.2.2.2 disabledWorld 5 rfl⟩

end HighlightSelected
